import Mathlib

/-!
Shallow embedding of `core/src/nodes/protocols_handler.rs` from the
`rust-libp2p` repository: the `ProtocolsHandler` interface and its event
types, the `DummyProtocolsHandler`, the `MapInEvent` / `MapOutEvent`
combinators, and the `NodeHandlerWrapper` negotiation adapter, together
with theorems checking the specification's claims about them.

Rust `&mut self` methods become explicit state passing.  The external
collaborators (the negotiation primitive `upgrade::apply` wrapped in
`tokio_timer::Timeout`) are modelled by an abstract `FutureModel` that the
adapter only drives through construction and polling, exactly as the
source does.
-/

namespace Libp2p

variable {α β σ ι ι' ω ω' π π' out υ υ' sub φ ε : Type}

/-- The uninhabited `void::Void` type. -/
abbrev Void : Type := Empty

/-- The endpoint role passed to `upgrade::apply` (`Endpoint::Dialer` /
`Endpoint::Listener`). -/
inductive Endpoint : Type where
  | Dialer
  | Listener
  deriving DecidableEq

/-- The `NodeHandlerEndpoint` direction tag from `nodes/handled_node.rs`
(reconstructed from its uses in `protocols_handler.rs`): a substream is
either received as a listener, or as a dialer carrying back the
outbound-open info supplied with the original request. -/
inductive NodeHandlerEndpoint (TOutboundOpenInfo : Type) : Type where
  | Dialer (info : TOutboundOpenInfo)
  | Listener
  deriving DecidableEq

/-- The `futures 0.1` readiness value `Async`. -/
inductive Async (α : Type) : Type where
  | Ready (val : α)
  | NotReady
  deriving DecidableEq

/-- The `Async::map` combinator of `futures 0.1`. -/
def Async.map (f : α → β) : Async α → Async β
  | .Ready v => .Ready (f v)
  | .NotReady => .NotReady

/-- Model of `std::io::Error`, covering the two constructions appearing in
the source: `io::ErrorKind::ConnectionReset.into()` and
`io::Error::new(io::ErrorKind::Other, msg)`. -/
inductive IoError : Type where
  | connectionReset
  | other (msg : String)
  deriving DecidableEq

/-- Model of `futures 0.1` `Poll<α, io::Error> = Result<Async<α>, io::Error>`. -/
abbrev Poll (α : Type) : Type := Except IoError (Async α)

/-- Event produced by a handler (`ProtocolsHandlerEvent`). -/
inductive ProtocolsHandlerEvent (TConnectionUpgrade TOutboundOpenInfo TCustom : Type) : Type where
  | OutboundSubstreamRequest (upgrade : TConnectionUpgrade) (info : TOutboundOpenInfo)
  | Custom (event : TCustom)
  deriving DecidableEq

/-- Source translation of `ProtocolsHandlerEvent::map_outbound_open_info`. -/
def ProtocolsHandlerEvent.map_outbound_open_info
    (ev : ProtocolsHandlerEvent π υ ω) (map : υ → υ') :
    ProtocolsHandlerEvent π υ' ω :=
  match ev with
  | .OutboundSubstreamRequest upgrade info => .OutboundSubstreamRequest upgrade (map info)
  | .Custom val => .Custom val

/-- Source translation of `ProtocolsHandlerEvent::map_protocol`. -/
def ProtocolsHandlerEvent.map_protocol
    (ev : ProtocolsHandlerEvent π υ ω) (map : π → π') :
    ProtocolsHandlerEvent π' υ ω :=
  match ev with
  | .OutboundSubstreamRequest upgrade info => .OutboundSubstreamRequest (map upgrade) info
  | .Custom val => .Custom val

/-- Source translation of `ProtocolsHandlerEvent::map_custom`. -/
def ProtocolsHandlerEvent.map_custom
    (ev : ProtocolsHandlerEvent π υ ω) (map : ω → ω') :
    ProtocolsHandlerEvent π υ ω' :=
  match ev with
  | .OutboundSubstreamRequest upgrade info => .OutboundSubstreamRequest upgrade info
  | .Custom val => .Custom (map val)

/-- The `NodeHandlerEvent` from `nodes/handled_node.rs` (reconstructed from
its uses in `protocols_handler.rs`). -/
inductive NodeHandlerEvent (TOutboundOpenInfo TCustom : Type) : Type where
  | OutboundSubstreamRequest (info : TOutboundOpenInfo)
  | Custom (event : TCustom)
  deriving DecidableEq

/-- The `ProtocolsHandler` trait, as a record of operations over an explicit
handler-state type `σ`.  Type parameters: `ι` = `InEvent`, `ω` = `OutEvent`,
`π` = `Protocol`, `out` = the protocol upgrade's `Output`, `υ` =
`OutboundOpenInfo`. -/
structure ProtocolsHandler (σ ι ω π out υ : Type) : Type where
  listen_protocol : σ → π
  inject_fully_negotiated : σ → out → NodeHandlerEndpoint υ → σ
  inject_event : σ → ι → σ
  inject_dial_upgrade_error : σ → υ → IoError → σ
  inject_inbound_closed : σ → σ
  shutdown : σ → σ
  poll : σ → σ × Poll (Option (ProtocolsHandlerEvent π υ ω))

/-- The `DeniedConnectionUpgrade` from the `upgrade` module: a connection
upgrade that denies every negotiation; its `Output` type is `Void`. -/
inductive DeniedConnectionUpgrade : Type where
  | denied
  deriving DecidableEq

/-- The `DummyProtocolsHandler`; its state is the `shutting_down` flag
(initially `false` per `Default`). -/
def DummyProtocolsHandler :
    ProtocolsHandler Bool Void Void DeniedConnectionUpgrade Void Void where
  listen_protocol _ := .denied
  inject_fully_negotiated s _ _ := s
  inject_event s _ := s
  inject_dial_upgrade_error s _ _ := s
  inject_inbound_closed s := s
  shutdown _ := true
  poll s := (s, if s then .ok (.Ready none) else .ok .NotReady)

/-- The `MapInEvent` wrapper: same inner state, `inject_event` filtered
through `map`; every other operation is the inner handler's. -/
def MapInEvent (inner : ProtocolsHandler σ ι ω π out υ) (map : ι' → Option ι) :
    ProtocolsHandler σ ι' ω π out υ where
  listen_protocol := inner.listen_protocol
  inject_fully_negotiated := inner.inject_fully_negotiated
  inject_event := fun s event =>
    match map event with
    | some ev => inner.inject_event s ev
    | none => s
  inject_dial_upgrade_error := inner.inject_dial_upgrade_error
  inject_inbound_closed := inner.inject_inbound_closed
  shutdown := inner.shutdown
  poll := inner.poll

/-- The `MapOutEvent` wrapper: same inner state, the `Custom` variant of the
inner poll result rewritten through `map`; every other operation is the
inner handler's. -/
def MapOutEvent (inner : ProtocolsHandler σ ι ω π out υ) (map : ω → ω') :
    ProtocolsHandler σ ι ω' π out υ where
  listen_protocol := inner.listen_protocol
  inject_fully_negotiated := inner.inject_fully_negotiated
  inject_event := inner.inject_event
  inject_dial_upgrade_error := inner.inject_dial_upgrade_error
  inject_inbound_closed := inner.inject_inbound_closed
  shutdown := inner.shutdown
  poll := fun s =>
    match inner.poll s with
    | (s', .error e) => (s', .error e)
    | (s', .ok a) =>
      (s', .ok (a.map (fun oev => oev.map (fun ev =>
        match ev with
        | .Custom e => .Custom (map e)
        | .OutboundSubstreamRequest upgrade info =>
            .OutboundSubstreamRequest upgrade info))))

/-- Result of polling a negotiation future (`Timeout<UpgradeApplyFuture>`):
ready with the upgrade output, not ready (returning the advanced future), or
failed with an error (an elapsed timeout surfaces as an error). -/
inductive FutPoll (φ out ε : Type) : Type where
  | ready (output : out)
  | notReady (next : φ)
  | error (err : ε)
  deriving DecidableEq

/-- Model of the external negotiation and deadline primitives.
`apply_with_timeout s p e t` models
`Timeout::new(upgrade::apply(s, p, e), t)`; `poll` models polling the
resulting future; `describe` models the `Debug` formatting `{:?}` of its
error type. -/
structure FutureModel (φ sub π out ε : Type) : Type where
  apply_with_timeout : sub → π → Endpoint → Nat → φ
  poll : φ → FutPoll φ out ε
  describe : ε → String

/-- The `NodeHandlerWrapperBuilder`: the wrapped handler state plus the two
negotiation timeouts (modelled in seconds). -/
structure NodeHandlerWrapperBuilder (σ : Type) : Type where
  handler : σ
  in_timeout : Nat
  out_timeout : Nat

/-- The `ProtocolsHandler::into_node_handler_builder` default method:
both timeouts default to `Duration::from_secs(10)`. -/
def into_node_handler_builder (handler : σ) : NodeHandlerWrapperBuilder σ :=
  { handler := handler, in_timeout := 10, out_timeout := 10 }

/-- Source translation of `NodeHandlerWrapperBuilder::with_in_negotiation_timeout`. -/
def NodeHandlerWrapperBuilder.with_in_negotiation_timeout
    (b : NodeHandlerWrapperBuilder σ) (timeout : Nat) : NodeHandlerWrapperBuilder σ :=
  { b with in_timeout := timeout }

/-- Source translation of `NodeHandlerWrapperBuilder::with_out_negotiation_timeout`. -/
def NodeHandlerWrapperBuilder.with_out_negotiation_timeout
    (b : NodeHandlerWrapperBuilder σ) (timeout : Nat) : NodeHandlerWrapperBuilder σ :=
  { b with out_timeout := timeout }

/-- The `NodeHandlerWrapper` adapter state.  `σ` is the wrapped handler's
state, `π` its protocol type, `υ` its outbound-open info, `φ` the
negotiation-future type. -/
structure NodeHandlerWrapper (σ π υ φ : Type) : Type where
  handler : σ
  negotiating_in : List φ
  negotiating_out : List (υ × φ)
  in_timeout : Nat
  out_timeout : Nat
  queued_dial_upgrades : List (Nat × π)
  unique_dial_upgrade_id : Nat

/-- Source translation of `NodeHandlerWrapperBuilder::build`. -/
def NodeHandlerWrapperBuilder.build (b : NodeHandlerWrapperBuilder σ) :
    NodeHandlerWrapper σ π υ φ :=
  { handler := b.handler
    negotiating_in := []
    negotiating_out := []
    in_timeout := b.in_timeout
    out_timeout := b.out_timeout
    queued_dial_upgrades := []
    unique_dial_upgrade_id := 0 }

/-- Moves the last element of a list to the front; used to state what
`Vec::swap_remove` does to the remainder of the vector. -/
def rotateLast (l : List α) : List α :=
  match l.getLast? with
  | some z => z :: l.dropLast
  | none => []

/-- Model of `Vec::swap_remove(i)`: removes the element at index `i`,
moving the last element of the vector into its place, and returns the
removed element (`none` when the index is out of bounds). -/
def swapRemove : List α → Nat → Option (α × List α)
  | [], _ => none
  | x :: xs, 0 => some (x, rotateLast xs)
  | x :: xs, n + 1 =>
    match swapRemove xs n with
    | some (y, ys) => some (y, x :: ys)
    | none => none

/-- The draining loop of `NodeHandlerWrapper::poll`
(`for n in (0..v.len()).rev() { let x = v.swap_remove(n); ... }`): `act`
performs the loop body on the removed element, returning the updated
handler state and, when the negotiation is still pending, the element to
push back at the end of the vector. -/
def drainLoop (act : σ → α → σ × Option α) : Nat → σ → List α → σ × List α
  | 0, s, v => (s, v)
  | n + 1, s, v =>
    match swapRemove v n with
    | none => (s, v)
    | some (x, v') =>
      match act s x with
      | (s', none) => drainLoop act n s' v'
      | (s', some x') => drainLoop act n s' (v' ++ [x'])

/-- Body of the first draining stage of `NodeHandlerWrapper::poll`
(inbound negotiations): success calls `inject_fully_negotiated` tagged
`Listener`, pending keeps the future, failure is silently dropped. -/
def negotiating_in_act (FM : FutureModel φ sub π out ε)
    (H : ProtocolsHandler σ ι ω π out υ) (s : σ) (f : φ) : σ × Option φ :=
  match FM.poll f with
  | .ready upgrade => (H.inject_fully_negotiated s upgrade .Listener, none)
  | .notReady next => (s, some next)
  | .error _ => (s, none)

/-- Body of the second draining stage of `NodeHandlerWrapper::poll`
(outbound negotiations): success calls `inject_fully_negotiated` tagged
`Dialer` with the stored user data, pending keeps the pair, failure calls
`inject_dial_upgrade_error` with the descriptive error
`io::Error::new(Other, format!("Error while upgrading: {:?}", err))`. -/
def negotiating_out_act (FM : FutureModel φ sub π out ε)
    (H : ProtocolsHandler σ ι ω π out υ) (s : σ) (p : υ × φ) : σ × Option (υ × φ) :=
  match FM.poll p.2 with
  | .ready upgrade => (H.inject_fully_negotiated s upgrade (.Dialer p.1), none)
  | .notReady next => (s, some (p.1, next))
  | .error err =>
    (H.inject_dial_upgrade_error s p.1
      (.other ("Error while upgrading: " ++ FM.describe err)), none)

/-- Combined model of
`queue.iter().position(|(id, _)| id == &target)` followed by
`Vec::remove(pos)`: finds the first entry whose id matches, removes it
preserving the order of the remaining entries, and returns its payload
(`none` when no entry matches). -/
def removeById (queue : List (Nat × π)) (target : Nat) : Option (π × List (Nat × π)) :=
  match queue with
  | [] => none
  | (id, p) :: rest =>
    if id = target then some (p, rest)
    else
      match removeById rest target with
      | some (q, rest') => some (q, (id, p) :: rest')
      | none => none

/-- Source translation of `NodeHandlerWrapper::inject_substream`.  The
boolean component of the result models whether the
`debug_assert!(false, "Received an upgrade with an invalid upgrade ID")`
defensive assertion fired (after which the source returns with no other
effect). -/
def NodeHandlerWrapper.inject_substream (FM : FutureModel φ sub π out ε)
    (H : ProtocolsHandler σ ι ω π out υ) (w : NodeHandlerWrapper σ π υ φ)
    (substream : sub) (endpoint : NodeHandlerEndpoint (Nat × υ)) :
    NodeHandlerWrapper σ π υ φ × Bool :=
  match endpoint with
  | .Listener =>
    let protocol := H.listen_protocol w.handler
    let with_timeout := FM.apply_with_timeout substream protocol .Listener w.in_timeout
    ({ w with negotiating_in := w.negotiating_in ++ [with_timeout] }, false)
  | .Dialer (upgrade_id, user_data) =>
    match removeById w.queued_dial_upgrades upgrade_id with
    | none => (w, true)
    | some (proto_upgrade, remaining) =>
      let with_timeout := FM.apply_with_timeout substream proto_upgrade .Dialer w.out_timeout
      ({ w with
          queued_dial_upgrades := remaining,
          negotiating_out := w.negotiating_out ++ [(user_data, with_timeout)] }, false)

/-- Source translation of `NodeHandlerWrapper::inject_inbound_closed`. -/
def NodeHandlerWrapper.inject_inbound_closed
    (H : ProtocolsHandler σ ι ω π out υ) (w : NodeHandlerWrapper σ π υ φ) :
    NodeHandlerWrapper σ π υ φ :=
  { w with handler := H.inject_inbound_closed w.handler }

/-- Source translation of `NodeHandlerWrapper::inject_outbound_closed`.
The boolean component models whether the
`debug_assert!(false, "Received an outbound closed error with an invalid upgrade ID")`
defensive assertion fired. -/
def NodeHandlerWrapper.inject_outbound_closed
    (H : ProtocolsHandler σ ι ω π out υ) (w : NodeHandlerWrapper σ π υ φ)
    (user_data : Nat × υ) : NodeHandlerWrapper σ π υ φ × Bool :=
  match removeById w.queued_dial_upgrades user_data.1 with
  | none => (w, true)
  | some (_, remaining) =>
    ({ w with
        queued_dial_upgrades := remaining,
        handler := H.inject_dial_upgrade_error w.handler user_data.2 .connectionReset },
     false)

/-- Source translation of `NodeHandlerWrapper::inject_event`. -/
def NodeHandlerWrapper.inject_event
    (H : ProtocolsHandler σ ι ω π out υ) (w : NodeHandlerWrapper σ π υ φ)
    (event : ι) : NodeHandlerWrapper σ π υ φ :=
  { w with handler := H.inject_event w.handler event }

/-- Source translation of `NodeHandlerWrapper::shutdown`. -/
def NodeHandlerWrapper.shutdown
    (H : ProtocolsHandler σ ι ω π out υ) (w : NodeHandlerWrapper σ π υ φ) :
    NodeHandlerWrapper σ π υ φ :=
  { w with handler := H.shutdown w.handler }

/-- Source translation of `NodeHandlerWrapper::poll`: drain the inbound
negotiations, then the outbound negotiations, then poll the wrapped handler
exactly once, turning an `OutboundSubstreamRequest` into a queued dial
upgrade under a fresh id. -/
def NodeHandlerWrapper.poll (FM : FutureModel φ sub π out ε)
    (H : ProtocolsHandler σ ι ω π out υ) (w : NodeHandlerWrapper σ π υ φ) :
    NodeHandlerWrapper σ π υ φ × Poll (Option (NodeHandlerEvent (Nat × υ) ω)) :=
  let d₁ := drainLoop (negotiating_in_act FM H) w.negotiating_in.length
    w.handler w.negotiating_in
  let d₂ := drainLoop (negotiating_out_act FM H) w.negotiating_out.length
    d₁.1 w.negotiating_out
  let pr := H.poll d₂.1
  let w' := { w with handler := pr.1, negotiating_in := d₁.2, negotiating_out := d₂.2 }
  match pr.2 with
  | .ok (.Ready (some (.Custom event))) => (w', .ok (.Ready (some (.Custom event))))
  | .ok (.Ready (some (.OutboundSubstreamRequest upgrade info))) =>
    let id := w.unique_dial_upgrade_id
    ({ w' with
        queued_dial_upgrades := w'.queued_dial_upgrades ++ [(id, upgrade)],
        unique_dial_upgrade_id := id + 1 },
     .ok (.Ready (some (.OutboundSubstreamRequest (id, info)))))
  | .ok (.Ready none) => (w', .ok (.Ready none))
  | .ok .NotReady => (w', .ok .NotReady)
  | .error e => (w', .error e)

/-- A record of one call made on the wrapped `ProtocolsHandler`; used to
state which calls the adapter performs, and in which order. -/
inductive HCall (ι out υ : Type) : Type where
  | inject_fully_negotiated (output : out) (endpoint : NodeHandlerEndpoint υ)
  | inject_event (event : ι)
  | inject_dial_upgrade_error (info : υ) (err : IoError)
  | inject_inbound_closed
  | shutdown
  | poll
  deriving DecidableEq

/-- Tests whether a recorded call is a call to the handler's `poll`. -/
def HCall.isPollCall : HCall ι out υ → Bool
  | .poll => true
  | _ => false

/-- Instruments a handler so that its state additionally accumulates the
list of calls made on it, in call order. -/
def traced (H : ProtocolsHandler σ ι ω π out υ) :
    ProtocolsHandler (σ × List (HCall ι out υ)) ι ω π out υ where
  listen_protocol s := H.listen_protocol s.1
  inject_fully_negotiated s output endpoint :=
    (H.inject_fully_negotiated s.1 output endpoint,
     s.2 ++ [.inject_fully_negotiated output endpoint])
  inject_event s event := (H.inject_event s.1 event, s.2 ++ [.inject_event event])
  inject_dial_upgrade_error s info err :=
    (H.inject_dial_upgrade_error s.1 info err, s.2 ++ [.inject_dial_upgrade_error info err])
  inject_inbound_closed s := (H.inject_inbound_closed s.1, s.2 ++ [.inject_inbound_closed])
  shutdown s := (H.shutdown s.1, s.2 ++ [.shutdown])
  poll s := (((H.poll s.1).1, s.2 ++ [.poll]), (H.poll s.1).2)

/-- The handler call that draining one inbound negotiation future performs:
a `Listener`-tagged `inject_fully_negotiated` on success, nothing when
pending or failed. -/
def inCallOf (FM : FutureModel φ sub π out ε) (f : φ) : Option (HCall ι out υ) :=
  match FM.poll f with
  | .ready upgrade => some (.inject_fully_negotiated upgrade .Listener)
  | .notReady _ => none
  | .error _ => none

/-- The handler call that draining one outbound negotiation entry performs:
a `Dialer`-tagged `inject_fully_negotiated` on success, an
`inject_dial_upgrade_error` with the stored user data on failure, nothing
when pending. -/
def outCallOf (FM : FutureModel φ sub π out ε) (p : υ × φ) : Option (HCall ι out υ) :=
  match FM.poll p.2 with
  | .ready upgrade => some (.inject_fully_negotiated upgrade (.Dialer p.1))
  | .notReady _ => none
  | .error err =>
    some (.inject_dial_upgrade_error p.1 (.other ("Error while upgrading: " ++ FM.describe err)))

/-- The advanced future kept in the inbound collection when a pending
negotiation reports not ready (`none` when it completed or failed). -/
def inKeep (FM : FutureModel φ sub π out ε) (f : φ) : Option φ :=
  match FM.poll f with
  | .ready _ => none
  | .notReady next => some next
  | .error _ => none

/-- The advanced entry kept in the outbound collection when a pending
negotiation reports not ready, paired with its original user data. -/
def outKeep (FM : FutureModel φ sub π out ε) (p : υ × φ) : Option (υ × φ) :=
  match FM.poll p.2 with
  | .ready _ => none
  | .notReady next => some (p.1, next)
  | .error _ => none

/-- One step of the order-insensitive model of the draining loop:
runs the body on one element and prepends the kept element, if any. -/
def drainStep (act : σ → α → σ × Option α) (a : α) (p : σ × List α) : σ × List α :=
  match act p.1 a with
  | (s', none) => (s', p.2)
  | (s', some x) => (s', x :: p.2)

/-- Order-insensitive model of the draining loop: processes the elements
from the last to the first, returning the final handler state and the kept
elements. -/
def drainModel (act : σ → α → σ × Option α) (u : List α) (s : σ) : σ × List α :=
  u.foldr (drainStep act) (s, [])

/-- One operation of the adapter's multiplexer-facing interface together
with its arguments; used to quantify over arbitrary interleavings of
adapter operations. -/
inductive AdapterOp (ι υ sub : Type) : Type where
  | inject_substream (substream : sub) (endpoint : NodeHandlerEndpoint (Nat × υ))
  | inject_inbound_closed
  | inject_outbound_closed (user_data : Nat × υ)
  | inject_event (event : ι)
  | shutdown
  | poll

/-- Applies one adapter operation to the adapter state, discarding the
operation's output. -/
def applyOp (FM : FutureModel φ sub π out ε) (H : ProtocolsHandler σ ι ω π out υ)
    (w : NodeHandlerWrapper σ π υ φ) : AdapterOp ι υ sub → NodeHandlerWrapper σ π υ φ
  | .inject_substream substream endpoint => (w.inject_substream FM H substream endpoint).1
  | .inject_inbound_closed => w.inject_inbound_closed H
  | .inject_outbound_closed user_data => (w.inject_outbound_closed H user_data).1
  | .inject_event event => w.inject_event H event
  | .shutdown => w.shutdown H
  | .poll => (w.poll FM H).1

/-- The id-bookkeeping invariant of the adapter: the queued ids are strictly
increasing in queue order (hence pairwise distinct), and all of them are
below the id counter. -/
def idsInv (w : NodeHandlerWrapper σ π υ φ) : Prop :=
  (w.queued_dial_upgrades.map Prod.fst).Pairwise (· < ·) ∧
  ∀ i ∈ w.queued_dial_upgrades.map Prod.fst, i < w.unique_dial_upgrade_id

/-- A concrete countdown negotiation future used by the witnesses: a fuel
counter plus a final outcome; polling with fuel left reports not ready and
burns one unit. -/
abbrev TestFut : Type := Nat × Except String Nat

/-- A concrete `FutureModel` instance over `TestFut` used by the witnesses. -/
def testFM : FutureModel TestFut Nat Nat Nat String where
  apply_with_timeout s p _ _ := (0, .ok (s + p))
  poll f :=
    match f with
    | (0, .ok o) => .ready o
    | (0, .error e) => .error e
    | (n + 1, oc) => .notReady (n, oc)
  describe e := e

/-- A concrete handler used by the witnesses: stateless, with every
reaction a no-op and a fixed poll result. -/
def constHandler (r : Poll (Option (ProtocolsHandlerEvent Nat Nat Nat))) :
    ProtocolsHandler Unit Nat Nat Nat Nat Nat where
  listen_protocol _ := 0
  inject_fully_negotiated s _ _ := s
  inject_event s _ := s
  inject_dial_upgrade_error s _ _ := s
  inject_inbound_closed s := s
  shutdown s := s
  poll s := (s, r)

/-- A concrete adapter state used by the witnesses: one queued dial upgrade
with id `0`, empty negotiation collections. -/
def testWrapper : NodeHandlerWrapper Unit Nat Nat TestFut where
  handler := ()
  negotiating_in := []
  negotiating_out := []
  in_timeout := 10
  out_timeout := 10
  queued_dial_upgrades := [(0, 3)]
  unique_dial_upgrade_id := 1

/-- A concrete adapter state over a traced handler used by the witnesses:
one inbound negotiation that is ready, one outbound negotiation that has
failed, and one queued dial upgrade with id `5`. -/
def tracedWrapper : NodeHandlerWrapper (Unit × List (HCall Nat Nat Nat)) Nat Nat TestFut where
  handler := ((), [])
  negotiating_in := [(0, .ok 7)]
  negotiating_out := [(9, (0, .error "boom"))]
  in_timeout := 10
  out_timeout := 10
  queued_dial_upgrades := [(5, 42)]
  unique_dial_upgrade_id := 6

/-
Theorems.  The claim-level properties below are checked against the
definitions above; the lemmas preceding them characterise the draining
loop and the queue-removal helper.
-/

/-- If no queue entry carries the target id, `removeById` finds nothing. -/
theorem removeById_eq_none {queue : List (Nat × π)} {target : Nat}
    (h : ∀ p ∈ queue, p.1 ≠ target) : removeById queue target = none := by
  induction queue with
  | nil => rfl
  | cons hd tl ih =>
    obtain ⟨id, p⟩ := hd
    have hne : id ≠ target := h (id, p) (List.mem_cons_self _ _)
    simp only [removeById, if_neg hne]
    rw [ih (fun q hq => h q (List.mem_cons_of_mem _ hq))]

/-- If some queue entry carries the target id, `removeById` removes the
first such entry and returns its payload. -/
theorem removeById_found {queue : List (Nat × π)} {target : Nat}
    (h : target ∈ queue.map Prod.fst) :
    ∃ q₁ p q₂, queue = q₁ ++ (target, p) :: q₂ ∧ (∀ r ∈ q₁, r.1 ≠ target) ∧
      removeById queue target = some (p, q₁ ++ q₂) := by
  induction queue with
  | nil => simp at h
  | cons hd tl ih =>
    obtain ⟨id, p⟩ := hd
    by_cases hid : id = target
    · subst hid
      exact ⟨[], p, tl, by simp, by simp, by simp [removeById]⟩
    · have hsplit : target = id ∨ ∃ x, (target, x) ∈ tl := by simpa using h
      have htl : target ∈ tl.map Prod.fst := by
        rcases hsplit with h2 | h2
        · exact absurd h2.symm hid
        · simpa using h2
      obtain ⟨q₁, q, q₂, hq, hn, hr⟩ := ih htl
      refine ⟨(id, p) :: q₁, q, q₂, by simp [hq], ?_, ?_⟩
      · intro r hr'
        rcases List.mem_cons.mp hr' with rfl | hmem
        · exact hid
        · exact hn r hmem
      · simp [removeById, if_neg hid, hr]

/-- Rotating the last element of a list to the front is a permutation. -/
theorem rotateLast_perm (l : List α) : (rotateLast l).Perm l := by
  rcases l.eq_nil_or_concat with rfl | ⟨l', z, rfl⟩
  · simp [rotateLast]
  · rw [List.concat_eq_append]
    simp only [rotateLast, List.getLast?_concat, List.dropLast_concat]
    exact (List.perm_append_singleton z l').symm

/-- `swap_remove` at index `u.length` of `u ++ a :: w` removes `a` and moves
the last element of the vector into its place. -/
theorem swapRemove_append (u : List α) (a : α) (w : List α) :
    swapRemove (u ++ a :: w) u.length = some (a, u ++ rotateLast w) := by
  induction u with
  | nil => simp [swapRemove]
  | cons b u ih => simp [swapRemove, ih]

/-- Running the draining fold from a non-empty accumulator appends the
accumulator after the kept elements. -/
theorem drainModel_append_acc (act : σ → α → σ × Option α) (u : List α) (s : σ) (l : List α) :
    u.foldr (drainStep act) (s, l) = ((drainModel act u s).1, (drainModel act u s).2 ++ l) := by
  induction u with
  | nil => simp [drainModel]
  | cons a u ih =>
    rw [List.foldr_cons, ih,
      show drainModel act (a :: u) s = drainStep act a (drainModel act u s) from rfl]
    rcases drainModel act u s with ⟨t, k⟩
    rcases ha : act t a with ⟨t', o⟩
    cases o <;> simp [drainStep, ha]

/-- The draining loop of `NodeHandlerWrapper::poll`, started on `u ++ w`
with fuel `u.length`, examines each element of `u` exactly once (from the
last to the first), producing the handler state of the order-insensitive
drain model, and leaves `w` plus the still-pending elements of `u`, up to
permutation. -/
theorem drainLoop_spec (act : σ → α → σ × Option α) (u w : List α) (s : σ) :
    ∃ w', drainLoop act u.length s (u ++ w) = ((drainModel act u s).1, w') ∧
      w'.Perm (w ++ (drainModel act u s).2) := by
  induction u using List.reverseRecOn generalizing w s with
  | nil => exact ⟨w, rfl, by simp [drainModel]⟩
  | append_singleton us a ih =>
    have hM : drainModel act (us ++ [a]) s =
        us.foldr (drainStep act) (drainStep act a (s, [])) := by
      simp [drainModel, List.foldr_append]
    have hlen : (us ++ [a]).length = us.length + 1 := by simp
    have hasc : (us ++ [a]) ++ w = us ++ a :: w := by simp
    rw [hlen, hasc]
    rcases ha : act s a with ⟨s', o⟩
    cases o with
    | none =>
      have hstep : drainLoop act (us.length + 1) s (us ++ a :: w) =
          drainLoop act us.length s' (us ++ rotateLast w) := by
        simp only [drainLoop, swapRemove_append us a w, ha]
      have hM' : drainModel act (us ++ [a]) s = drainModel act us s' := by
        rw [hM, show drainStep act a (s, []) = (s', []) by simp [drainStep, ha]]
        rfl
      rw [hstep, hM']
      obtain ⟨w', hw', hperm⟩ := ih (rotateLast w) s'
      exact ⟨w', hw', hperm.trans ((rotateLast_perm w).append_right _)⟩
    | some x' =>
      have hstep : drainLoop act (us.length + 1) s (us ++ a :: w) =
          drainLoop act us.length s' (us ++ (rotateLast w ++ [x'])) := by
        simp only [drainLoop, swapRemove_append us a w, ha, List.append_assoc]
      have hM' : drainModel act (us ++ [a]) s =
          ((drainModel act us s').1, (drainModel act us s').2 ++ [x']) := by
        rw [hM, show drainStep act a (s, []) = (s', [x']) by simp [drainStep, ha]]
        exact drainModel_append_acc act us s' [x']
      rw [hstep, hM']
      obtain ⟨w', hw', hperm⟩ := ih (rotateLast w ++ [x']) s'
      refine ⟨w', hw', ?_⟩
      refine hperm.trans ?_
      rw [show (rotateLast w ++ [x']) ++ (drainModel act us s').2 =
          rotateLast w ++ ([x'] ++ (drainModel act us s').2) from List.append_assoc _ _ _]
      exact ((rotateLast_perm w).append_right _).trans
        (List.Perm.append_left w List.perm_append_comm)

/-- Draining the inbound collection with the traced handler runs the plain
handler underneath and appends exactly the `Listener`-tagged
fully-negotiated calls of the ready entries, in examination order. -/
theorem drainModel_in_traced (FM : FutureModel φ sub π out ε)
    (H : ProtocolsHandler σ ι ω π out υ) (u : List φ) (s : σ)
    (log : List (HCall ι out υ)) :
    (drainModel (negotiating_in_act FM (traced H)) u (s, log)).1 =
      ((drainModel (negotiating_in_act FM H) u s).1,
        log ++ u.reverse.filterMap (fun f => inCallOf FM f)) := by
  induction u with
  | nil => simp [drainModel]
  | cons f u ih =>
    rw [show drainModel (negotiating_in_act FM (traced H)) (f :: u) (s, log) =
        drainStep (negotiating_in_act FM (traced H)) f
          (drainModel (negotiating_in_act FM (traced H)) u (s, log)) from rfl,
      show drainModel (negotiating_in_act FM H) (f :: u) s =
        drainStep (negotiating_in_act FM H) f
          (drainModel (negotiating_in_act FM H) u s) from rfl]
    rcases hp : drainModel (negotiating_in_act FM (traced H)) u (s, log) with ⟨p1, p2⟩
    rcases hq : drainModel (negotiating_in_act FM H) u s with ⟨q1, q2⟩
    rw [hp, hq] at ih
    have ih' : p1 = (q1, log ++ u.reverse.filterMap (fun f => inCallOf FM f)) := by
      simpa using ih
    subst ih'
    rcases hf : FM.poll f with o | nx | e <;>
      simp [drainStep, negotiating_in_act, traced, hf, inCallOf,
        List.filterMap_append]

/-- Draining the outbound collection with the traced handler runs the plain
handler underneath and appends exactly the `Dialer`-tagged
fully-negotiated calls of the ready entries and the dial-upgrade-error
calls of the failed entries, in examination order. -/
theorem drainModel_out_traced (FM : FutureModel φ sub π out ε)
    (H : ProtocolsHandler σ ι ω π out υ) (u : List (υ × φ)) (s : σ)
    (log : List (HCall ι out υ)) :
    (drainModel (negotiating_out_act FM (traced H)) u (s, log)).1 =
      ((drainModel (negotiating_out_act FM H) u s).1,
        log ++ u.reverse.filterMap (fun p => outCallOf FM p)) := by
  induction u with
  | nil => simp [drainModel]
  | cons p u ih =>
    rw [show drainModel (negotiating_out_act FM (traced H)) (p :: u) (s, log) =
        drainStep (negotiating_out_act FM (traced H)) p
          (drainModel (negotiating_out_act FM (traced H)) u (s, log)) from rfl,
      show drainModel (negotiating_out_act FM H) (p :: u) s =
        drainStep (negotiating_out_act FM H) p
          (drainModel (negotiating_out_act FM H) u s) from rfl]
    rcases hp : drainModel (negotiating_out_act FM (traced H)) u (s, log) with ⟨p1, p2⟩
    rcases hq : drainModel (negotiating_out_act FM H) u s with ⟨q1, q2⟩
    rw [hp, hq] at ih
    have ih' : p1 = (q1, log ++ u.reverse.filterMap (fun p => outCallOf FM p)) := by
      simpa using ih
    subst ih'
    rcases hf : FM.poll p.2 with o | nx | e <;>
      simp [drainStep, negotiating_out_act, traced, hf, outCallOf,
        List.filterMap_append]

/-- The kept elements of the inbound drain are exactly the still-pending
futures, advanced one poll. -/
theorem drainModel_keep_in (FM : FutureModel φ sub π out ε)
    (H : ProtocolsHandler σ ι ω π out υ) (u : List φ) (s : σ) :
    (drainModel (negotiating_in_act FM H) u s).2 = u.filterMap (inKeep FM) := by
  induction u with
  | nil => rfl
  | cons f u ih =>
    rw [show drainModel (negotiating_in_act FM H) (f :: u) s =
        drainStep (negotiating_in_act FM H) f
          (drainModel (negotiating_in_act FM H) u s) from rfl]
    rcases hq : drainModel (negotiating_in_act FM H) u s with ⟨q1, q2⟩
    rw [hq] at ih
    have ih' : q2 = u.filterMap (inKeep FM) := by simpa using ih
    subst ih'
    rcases hf : FM.poll f with o | nx | e <;>
      simp [drainStep, negotiating_in_act, hf, inKeep]

/-- The kept elements of the outbound drain are exactly the still-pending
entries, each advanced one poll and paired with its original user data. -/
theorem drainModel_keep_out (FM : FutureModel φ sub π out ε)
    (H : ProtocolsHandler σ ι ω π out υ) (u : List (υ × φ)) (s : σ) :
    (drainModel (negotiating_out_act FM H) u s).2 = u.filterMap (outKeep FM) := by
  induction u with
  | nil => rfl
  | cons p u ih =>
    rw [show drainModel (negotiating_out_act FM H) (p :: u) s =
        drainStep (negotiating_out_act FM H) p
          (drainModel (negotiating_out_act FM H) u s) from rfl]
    rcases hq : drainModel (negotiating_out_act FM H) u s with ⟨q1, q2⟩
    rw [hq] at ih
    have ih' : q2 = u.filterMap (outKeep FM) := by simpa using ih
    subst ih'
    rcases hf : FM.poll p.2 with o | nx | e <;>
      simp [drainStep, negotiating_out_act, hf, outKeep]

/-- C3: a `Dialer`-tagged `inject_substream` whose id is not in the
queued-dial-upgrade list trips the defensive assertion and leaves the
adapter state completely unchanged. -/
theorem inject_substream_invalid_id_asserts (FM : FutureModel φ sub π out ε)
    (H : ProtocolsHandler σ ι ω π out υ) (w : NodeHandlerWrapper σ π υ φ)
    (substream : sub) (upgrade_id : Nat) (user_data : υ)
    (h : ∀ p ∈ w.queued_dial_upgrades, p.1 ≠ upgrade_id) :
    w.inject_substream FM H substream (.Dialer (upgrade_id, user_data)) = (w, true) := by
  simp [NodeHandlerWrapper.inject_substream, removeById_eq_none h]

/-- Witness for C3 at a concrete adapter state. -/
theorem inject_substream_invalid_id_asserts_witness :
    (∀ p ∈ testWrapper.queued_dial_upgrades, p.1 ≠ 5) ∧
    testWrapper.inject_substream testFM (constHandler (.ok .NotReady)) 7 (.Dialer (5, 9)) =
      (testWrapper, true) :=
  ⟨by decide, inject_substream_invalid_id_asserts testFM (constHandler (.ok .NotReady))
    testWrapper 7 5 9 (by decide)⟩

/-- C6: `MapOutEvent::poll` passes an inner `OutboundSubstreamRequest`
through with `upgrade` and `info` unchanged and rewrites an inner
`Custom(e)` into `Custom(f(e))`; and each of the three
`ProtocolsHandlerEvent` transforms changes only its target component,
leaving the other two components and the other variant unchanged. -/
theorem map_out_event_spec (H : ProtocolsHandler σ ι ω π out υ) (f : ω → ω') (s : σ) :
    (∀ (s' : σ) (u : π) (i : υ),
        H.poll s = (s', .ok (.Ready (some (.OutboundSubstreamRequest u i)))) →
        (MapOutEvent H f).poll s = (s', .ok (.Ready (some (.OutboundSubstreamRequest u i))))) ∧
    (∀ (s' : σ) (e : ω),
        H.poll s = (s', .ok (.Ready (some (.Custom e)))) →
        (MapOutEvent H f).poll s = (s', .ok (.Ready (some (.Custom (f e)))))) ∧
    (∀ (g : π → π') (u : π) (i : υ),
        (ProtocolsHandlerEvent.OutboundSubstreamRequest u i :
            ProtocolsHandlerEvent π υ ω).map_protocol g =
          .OutboundSubstreamRequest (g u) i) ∧
    (∀ (g : π → π') (c : ω),
        (ProtocolsHandlerEvent.Custom c : ProtocolsHandlerEvent π υ ω).map_protocol g =
          .Custom c) ∧
    (∀ (g : υ → υ') (u : π) (i : υ),
        (ProtocolsHandlerEvent.OutboundSubstreamRequest u i :
            ProtocolsHandlerEvent π υ ω).map_outbound_open_info g =
          .OutboundSubstreamRequest u (g i)) ∧
    (∀ (g : υ → υ') (c : ω),
        (ProtocolsHandlerEvent.Custom c : ProtocolsHandlerEvent π υ ω).map_outbound_open_info g =
          .Custom c) ∧
    (∀ (g : ω → ω') (u : π) (i : υ),
        (ProtocolsHandlerEvent.OutboundSubstreamRequest u i :
            ProtocolsHandlerEvent π υ ω).map_custom g =
          .OutboundSubstreamRequest u i) ∧
    (∀ (g : ω → ω') (c : ω),
        (ProtocolsHandlerEvent.Custom c : ProtocolsHandlerEvent π υ ω).map_custom g =
          .Custom (g c)) := by
  refine ⟨?_, ?_, fun _ _ _ => rfl, fun _ _ => rfl, fun _ _ _ => rfl, fun _ _ => rfl,
    fun _ _ _ => rfl, fun _ _ => rfl⟩
  · intro s' u i h
    simp [MapOutEvent, h, Async.map, ProtocolsHandlerEvent.map_custom]
  · intro s' e h
    simp [MapOutEvent, h, Async.map, ProtocolsHandlerEvent.map_custom]

/-- Witness for C6 at two concrete inner handlers. -/
theorem map_out_event_spec_witness :
    ((constHandler (.ok (.Ready (some (.OutboundSubstreamRequest 3 5))))).poll () =
        ((), .ok (.Ready (some (.OutboundSubstreamRequest 3 5)))) ∧
      (MapOutEvent (constHandler (.ok (.Ready (some (.OutboundSubstreamRequest 3 5)))))
          (· + 1)).poll () =
        ((), .ok (.Ready (some (.OutboundSubstreamRequest 3 5))))) ∧
    ((constHandler (.ok (.Ready (some (.Custom 4))))).poll () =
        ((), .ok (.Ready (some (.Custom 4)))) ∧
      (MapOutEvent (constHandler (.ok (.Ready (some (.Custom 4))))) (· + 1)).poll () =
        ((), .ok (.Ready (some (.Custom 5))))) :=
  ⟨⟨rfl, (@map_out_event_spec Unit Nat Nat Nat Nat Nat Nat Nat Nat
      (constHandler (.ok (.Ready (some (.OutboundSubstreamRequest 3 5)))))
      (· + 1) ()).1 () 3 5 rfl⟩,
   ⟨rfl, (@map_out_event_spec Unit Nat Nat Nat Nat Nat Nat Nat Nat
      (constHandler (.ok (.Ready (some (.Custom 4))))) (· + 1) ()).2.1 () 4 rfl⟩⟩

/-- C7: `MapInEvent::inject_event` forwards nothing to the inner handler
when the translation function rejects the event, forwards exactly one
translated `inject_event` call when it accepts it, and every other
operation of the mapper is the inner handler's operation unchanged. -/
theorem map_in_event_spec (H : ProtocolsHandler σ ι ω π out υ) (f : ι' → Option ι)
    (s : σ) (log : List (HCall ι out υ)) (x y : ι') (y' : ι) :
    (f x = none → (MapInEvent (traced H) f).inject_event (s, log) x = (s, log)) ∧
    (f y = some y' →
      (MapInEvent (traced H) f).inject_event (s, log) y =
        (H.inject_event s y', log ++ [.inject_event y'])) ∧
    (MapInEvent (traced H) f).listen_protocol = (traced H).listen_protocol ∧
    (MapInEvent (traced H) f).inject_fully_negotiated = (traced H).inject_fully_negotiated ∧
    (MapInEvent (traced H) f).inject_dial_upgrade_error = (traced H).inject_dial_upgrade_error ∧
    (MapInEvent (traced H) f).inject_inbound_closed = (traced H).inject_inbound_closed ∧
    (MapInEvent (traced H) f).shutdown = (traced H).shutdown ∧
    (MapInEvent (traced H) f).poll = (traced H).poll := by
  refine ⟨?_, ?_, rfl, rfl, rfl, rfl, rfl, rfl⟩
  · intro h
    simp [MapInEvent, h]
  · intro h
    simp [MapInEvent, traced, h]

/-- Witness for C7 with a concrete translation function that rejects `0`
and translates `1` to `2`. -/
theorem map_in_event_spec_witness :
    ((fun n : Nat => if n = 0 then none else some (n + 1)) 0 = none ∧
      (MapInEvent (traced (constHandler (.ok .NotReady)))
          (fun n : Nat => if n = 0 then none else some (n + 1))).inject_event ((), []) 0 =
        ((), [])) ∧
    ((fun n : Nat => if n = 0 then none else some (n + 1)) 1 = some 2 ∧
      (MapInEvent (traced (constHandler (.ok .NotReady)))
          (fun n : Nat => if n = 0 then none else some (n + 1))).inject_event ((), []) 1 =
        ((constHandler (.ok .NotReady)).inject_event () 2, [] ++ [.inject_event 2])) :=
  ⟨⟨rfl, (map_in_event_spec (constHandler (.ok .NotReady))
      (fun n : Nat => if n = 0 then none else some (n + 1)) () [] 0 1 2).1 rfl⟩,
   ⟨rfl, (map_in_event_spec (constHandler (.ok .NotReady))
      (fun n : Nat => if n = 0 then none else some (n + 1)) () [] 0 1 2).2.1 rfl⟩⟩

/-- C8: the null handler reports pending on every poll before `shutdown`,
reports terminal completion on every poll after `shutdown`, never produces
an event from poll, and its `inject_fully_negotiated` does nothing (its
negotiated-output type `Void` is moreover uninhabited). -/
theorem dummy_handler_spec :
    (∀ s : Bool, s = false → (DummyProtocolsHandler.poll s).2 = .ok .NotReady) ∧
    (∀ s : Bool, s = true → (DummyProtocolsHandler.poll s).2 = .ok (.Ready none)) ∧
    (∀ s : Bool, DummyProtocolsHandler.shutdown s = true) ∧
    (∀ (s : Bool) (ev : ProtocolsHandlerEvent DeniedConnectionUpgrade Void Void),
        (DummyProtocolsHandler.poll s).2 ≠ .ok (.Ready (some ev))) ∧
    (∀ (s : Bool) (output : Void) (ep : NodeHandlerEndpoint Void),
        DummyProtocolsHandler.inject_fully_negotiated s output ep = s) ∧
    (∀ s : Bool, DummyProtocolsHandler.inject_inbound_closed s = s) := by
  refine ⟨fun s h => by simp [DummyProtocolsHandler, h], fun s h => by
    simp [DummyProtocolsHandler, h], fun s => rfl, ?_, fun s output ep => rfl,
    fun s => rfl⟩
  intro s ev h
  rcases s with _ | _ <;> simp [DummyProtocolsHandler] at h

/-- Witness for C8 at both states of the null handler. -/
theorem dummy_handler_spec_witness :
    (DummyProtocolsHandler.poll false).2 = .ok .NotReady ∧
    (DummyProtocolsHandler.poll true).2 = .ok (.Ready none) :=
  ⟨dummy_handler_spec.1 false rfl, dummy_handler_spec.2.1 true rfl⟩

/-- C9: `inject_inbound_closed`, `inject_event` and `shutdown` on the
adapter forward exactly one matching call to the wrapped handler and leave
every adapter-local field (both negotiation collections, the
queued-dial-upgrade list, the id counter and both timeouts) unchanged. -/
theorem forwarding_ops_frame (H : ProtocolsHandler σ ι ω π out υ)
    (w : NodeHandlerWrapper (σ × List (HCall ι out υ)) π υ φ) (event : ι) :
    (NodeHandlerWrapper.inject_inbound_closed (traced H) w =
      { w with handler := (H.inject_inbound_closed w.handler.1,
                           w.handler.2 ++ [.inject_inbound_closed]) }) ∧
    (NodeHandlerWrapper.inject_event (traced H) w event =
      { w with handler := (H.inject_event w.handler.1 event,
                           w.handler.2 ++ [.inject_event event]) }) ∧
    (NodeHandlerWrapper.shutdown (traced H) w =
      { w with handler := (H.shutdown w.handler.1, w.handler.2 ++ [.shutdown]) }) :=
  ⟨rfl, rfl, rfl⟩

/-- C10: one adapter poll keeps exactly the still-pending negotiations of
each collection, in that same collection — the pending inbound futures
(advanced one poll), and the pending outbound entries (advanced one poll,
still paired with their original user data); completed and failed entries
are removed and nothing else changes in the collections, up to order. -/
theorem poll_preserves_pending_negotiations (FM : FutureModel φ sub π out ε)
    (H : ProtocolsHandler σ ι ω π out υ) (w : NodeHandlerWrapper σ π υ φ) :
    ((w.poll FM H).1.negotiating_in).Perm (w.negotiating_in.filterMap (inKeep FM)) ∧
    ((w.poll FM H).1.negotiating_out).Perm (w.negotiating_out.filterMap (outKeep FM)) := by
  have hinP := drainLoop_spec (negotiating_in_act FM H) w.negotiating_in [] w.handler
  simp only [List.append_nil, List.nil_append] at hinP
  obtain ⟨nin', hin, hinp⟩ := hinP
  have houtP := drainLoop_spec (negotiating_out_act FM H) w.negotiating_out []
    ((drainModel (negotiating_in_act FM H) w.negotiating_in w.handler).1)
  simp only [List.append_nil, List.nil_append] at houtP
  obtain ⟨nout', hout, houtp⟩ := houtP
  have key : (w.poll FM H).1.negotiating_in = nin' ∧
      (w.poll FM H).1.negotiating_out = nout' := by
    simp only [NodeHandlerWrapper.poll, hin, hout]
    rcases hpr : H.poll (drainModel (negotiating_out_act FM H) w.negotiating_out
        ((drainModel (negotiating_in_act FM H) w.negotiating_in w.handler).1)).1 with ⟨s3, r⟩
    rcases r with e | a
    · simp
    · rcases a with v | _
      · rcases v with _ | ev
        · simp
        · rcases ev with ⟨upg, info⟩ | ev <;> simp
      · simp
  rw [key.1, key.2]
  constructor
  · exact hinp.trans (by rw [drainModel_keep_in])
  · exact houtp.trans (by rw [drainModel_keep_out])

/-- C1: one adapter poll first performs the `Listener`-tagged calls of the
resolved inbound negotiations, then the `Dialer`-tagged fully-negotiated
calls and dial-upgrade-error calls of the resolved outbound negotiations,
then calls the wrapped handler's poll — exactly once, as the last call; and
if that handler poll returns terminal completion (`Ready(None)`), the
adapter's poll returns terminal completion in the same call. -/
theorem poll_stage_order (FM : FutureModel φ sub π out ε)
    (H : ProtocolsHandler σ ι ω π out υ)
    (w : NodeHandlerWrapper (σ × List (HCall ι out υ)) π υ φ) :
    ∃ ins outs : List (HCall ι out υ),
      (NodeHandlerWrapper.poll FM (traced H) w).1.handler.2 =
        w.handler.2 ++ ins ++ outs ++ [HCall.poll] ∧
      (∀ c ∈ ins, ∃ o, c = HCall.inject_fully_negotiated o .Listener) ∧
      (∀ c ∈ outs, (∃ o i, c = HCall.inject_fully_negotiated o (.Dialer i)) ∨
        ∃ i e, c = HCall.inject_dial_upgrade_error i e) ∧
      ((ins ++ (outs ++ [HCall.poll])).countP HCall.isPollCall = 1) ∧
      (((traced H).poll (drainLoop (negotiating_out_act FM (traced H))
            w.negotiating_out.length
            (drainLoop (negotiating_in_act FM (traced H)) w.negotiating_in.length
              w.handler w.negotiating_in).1 w.negotiating_out).1).2 =
          .ok (.Ready none) →
        (NodeHandlerWrapper.poll FM (traced H) w).2 = .ok (.Ready none)) := by
  have hinP := drainLoop_spec (negotiating_in_act FM (traced H)) w.negotiating_in [] w.handler
  simp only [List.append_nil] at hinP
  obtain ⟨nin', hin, -⟩ := hinP
  have houtP := drainLoop_spec (negotiating_out_act FM (traced H)) w.negotiating_out []
    ((drainModel (negotiating_in_act FM (traced H)) w.negotiating_in w.handler).1)
  simp only [List.append_nil] at houtP
  obtain ⟨nout', hout, -⟩ := houtP
  have hs1 : (drainModel (negotiating_in_act FM (traced H)) w.negotiating_in w.handler).1 =
      ((drainModel (negotiating_in_act FM H) w.negotiating_in w.handler.1).1,
        w.handler.2 ++ w.negotiating_in.reverse.filterMap (fun f => inCallOf FM f)) :=
    drainModel_in_traced FM H w.negotiating_in w.handler.1 w.handler.2
  have hs2 : (drainModel (negotiating_out_act FM (traced H)) w.negotiating_out
      ((drainModel (negotiating_in_act FM (traced H)) w.negotiating_in w.handler).1)).1 =
      ((drainModel (negotiating_out_act FM H) w.negotiating_out
          (drainModel (negotiating_in_act FM H) w.negotiating_in w.handler.1).1).1,
        (w.handler.2 ++ w.negotiating_in.reverse.filterMap (fun f => inCallOf FM f)) ++
          w.negotiating_out.reverse.filterMap (fun p => outCallOf FM p)) := by
    rw [hs1]
    exact drainModel_out_traced FM H w.negotiating_out _ _
  have hmem_in : ∀ c ∈ w.negotiating_in.reverse.filterMap
      (fun f => (inCallOf FM f : Option (HCall ι out υ))),
      ∃ o, c = HCall.inject_fully_negotiated o .Listener := by
    intro c hc
    obtain ⟨f, -, hf⟩ := List.mem_filterMap.mp hc
    rcases hpf : FM.poll f with o | nx | e <;> simp [inCallOf, hpf] at hf
    exact ⟨o, hf.symm⟩
  have hmem_out : ∀ c ∈ w.negotiating_out.reverse.filterMap
      (fun p => (outCallOf FM p : Option (HCall ι out υ))),
      (∃ o i, c = HCall.inject_fully_negotiated o (.Dialer i)) ∨
        ∃ i e, c = HCall.inject_dial_upgrade_error i e := by
    intro c hc
    obtain ⟨p, -, hf⟩ := List.mem_filterMap.mp hc
    rcases hpf : FM.poll p.2 with o | nx | e <;> simp [outCallOf, hpf] at hf
    · exact Or.inl ⟨o, p.1, hf.symm⟩
    · exact Or.inr ⟨p.1, _, hf.symm⟩
  have hcnt : ((w.negotiating_in.reverse.filterMap
      (fun f => (inCallOf FM f : Option (HCall ι out υ))) ++
      (w.negotiating_out.reverse.filterMap (fun p => outCallOf FM p) ++
        [HCall.poll])).countP HCall.isPollCall) = 1 := by
    rw [List.countP_append, List.countP_append]
    have h1 : (w.negotiating_in.reverse.filterMap
        (fun f => (inCallOf FM f : Option (HCall ι out υ)))).countP HCall.isPollCall = 0 :=
      List.countP_eq_zero.mpr (fun c hc => by
        obtain ⟨o, rfl⟩ := hmem_in c hc
        simp [HCall.isPollCall])
    have h2 : (w.negotiating_out.reverse.filterMap
        (fun p => (outCallOf FM p : Option (HCall ι out υ)))).countP HCall.isPollCall = 0 :=
      List.countP_eq_zero.mpr (fun c hc => by
        rcases hmem_out c hc with ⟨o, i, rfl⟩ | ⟨i, e, rfl⟩ <;> simp [HCall.isPollCall])
    rw [h1, h2]
    simp [HCall.isPollCall, List.countP_cons]
  have htp : ∀ p : σ × List (HCall ι out υ),
      (traced H).poll p = (((H.poll p.1).1, p.2 ++ [HCall.poll]), (H.poll p.1).2) :=
    fun p => rfl
  refine ⟨w.negotiating_in.reverse.filterMap (fun f => inCallOf FM f),
    w.negotiating_out.reverse.filterMap (fun p => outCallOf FM p),
    ?_, hmem_in, hmem_out, hcnt, ?_⟩
  · simp only [NodeHandlerWrapper.poll, hin, hout, hs2, htp]
    rcases hpr : H.poll (drainModel (negotiating_out_act FM H) w.negotiating_out
        (drainModel (negotiating_in_act FM H) w.negotiating_in w.handler.1).1).1 with ⟨s3, r⟩
    rcases r with e | a
    · simp
    · rcases a with v | _
      · rcases v with _ | ev
        · simp
        · rcases ev with ⟨upg, info⟩ | ev <;> simp
      · simp
  · intro hterm
    simp only [hin, hout, hs2, htp] at hterm
    simp only [NodeHandlerWrapper.poll, hin, hout, hs2, htp, hterm]

/-- Witness for C1 at a concrete adapter state whose wrapped handler polls
to terminal completion. -/
theorem poll_stage_order_witness :
    (((traced (constHandler (.ok (.Ready none)))).poll
        (drainLoop (negotiating_out_act testFM (traced (constHandler (.ok (.Ready none)))))
          tracedWrapper.negotiating_out.length
          (drainLoop (negotiating_in_act testFM (traced (constHandler (.ok (.Ready none)))))
            tracedWrapper.negotiating_in.length
            tracedWrapper.handler tracedWrapper.negotiating_in).1
          tracedWrapper.negotiating_out).1).2 = .ok (.Ready none)) ∧
    (∃ ins outs : List (HCall Nat Nat Nat),
      (NodeHandlerWrapper.poll testFM (traced (constHandler (.ok (.Ready none))))
          tracedWrapper).1.handler.2 =
        tracedWrapper.handler.2 ++ ins ++ outs ++ [HCall.poll] ∧
      (∀ c ∈ ins, ∃ o, c = HCall.inject_fully_negotiated o .Listener) ∧
      (∀ c ∈ outs, (∃ o i, c = HCall.inject_fully_negotiated o (.Dialer i)) ∨
        ∃ i e, c = HCall.inject_dial_upgrade_error i e) ∧
      ((ins ++ (outs ++ [HCall.poll])).countP HCall.isPollCall = 1) ∧
      (((traced (constHandler (.ok (.Ready none)))).poll
          (drainLoop (negotiating_out_act testFM (traced (constHandler (.ok (.Ready none)))))
            tracedWrapper.negotiating_out.length
            (drainLoop (negotiating_in_act testFM (traced (constHandler (.ok (.Ready none)))))
              tracedWrapper.negotiating_in.length
              tracedWrapper.handler tracedWrapper.negotiating_in).1
            tracedWrapper.negotiating_out).1).2 = .ok (.Ready none) →
        (NodeHandlerWrapper.poll testFM (traced (constHandler (.ok (.Ready none))))
            tracedWrapper).2 = .ok (.Ready none))) :=
  ⟨rfl, poll_stage_order testFM (constHandler (.ok (.Ready none))) tracedWrapper⟩

/-- C4: during one adapter poll, a failed (or timed-out) inbound
negotiation contributes no call to the wrapped handler, while each failed
(or timed-out) outbound negotiation contributes exactly one
`inject_dial_upgrade_error` call carrying its original user data and the
descriptive error; and the adapter's poll returns an error only when the
wrapped handler's own poll returned that error. -/
theorem poll_negotiation_failure_handling (FM : FutureModel φ sub π out ε)
    (H : ProtocolsHandler σ ι ω π out υ)
    (w : NodeHandlerWrapper (σ × List (HCall ι out υ)) π υ φ) :
    (NodeHandlerWrapper.poll FM (traced H) w).1.handler.2 =
      w.handler.2 ++
        w.negotiating_in.reverse.filterMap
          (fun f => (inCallOf FM f : Option (HCall ι out υ))) ++
        w.negotiating_out.reverse.filterMap (fun p => outCallOf FM p) ++
        [HCall.poll] ∧
    (∀ (f : φ) (e : ε), FM.poll f = .error e →
      (inCallOf FM f : Option (HCall ι out υ)) = none) ∧
    (∀ (i : υ) (f : φ) (e : ε), FM.poll f = .error e →
      (outCallOf FM (i, f) : Option (HCall ι out υ)) =
        some (.inject_dial_upgrade_error i
          (.other ("Error while upgrading: " ++ FM.describe e)))) ∧
    (∀ e, (NodeHandlerWrapper.poll FM (traced H) w).2 = .error e →
      ((traced H).poll (drainLoop (negotiating_out_act FM (traced H))
          w.negotiating_out.length
          (drainLoop (negotiating_in_act FM (traced H)) w.negotiating_in.length
            w.handler w.negotiating_in).1 w.negotiating_out).1).2 = .error e) := by
  have hinP := drainLoop_spec (negotiating_in_act FM (traced H)) w.negotiating_in [] w.handler
  simp only [List.append_nil] at hinP
  obtain ⟨nin', hin, -⟩ := hinP
  have houtP := drainLoop_spec (negotiating_out_act FM (traced H)) w.negotiating_out []
    ((drainModel (negotiating_in_act FM (traced H)) w.negotiating_in w.handler).1)
  simp only [List.append_nil] at houtP
  obtain ⟨nout', hout, -⟩ := houtP
  have hs1 : (drainModel (negotiating_in_act FM (traced H)) w.negotiating_in w.handler).1 =
      ((drainModel (negotiating_in_act FM H) w.negotiating_in w.handler.1).1,
        w.handler.2 ++ w.negotiating_in.reverse.filterMap (fun f => inCallOf FM f)) :=
    drainModel_in_traced FM H w.negotiating_in w.handler.1 w.handler.2
  have hs2 : (drainModel (negotiating_out_act FM (traced H)) w.negotiating_out
      ((drainModel (negotiating_in_act FM (traced H)) w.negotiating_in w.handler).1)).1 =
      ((drainModel (negotiating_out_act FM H) w.negotiating_out
          (drainModel (negotiating_in_act FM H) w.negotiating_in w.handler.1).1).1,
        (w.handler.2 ++ w.negotiating_in.reverse.filterMap (fun f => inCallOf FM f)) ++
          w.negotiating_out.reverse.filterMap (fun p => outCallOf FM p)) := by
    rw [hs1]
    exact drainModel_out_traced FM H w.negotiating_out _ _
  have htp : ∀ p : σ × List (HCall ι out υ),
      (traced H).poll p = (((H.poll p.1).1, p.2 ++ [HCall.poll]), (H.poll p.1).2) :=
    fun p => rfl
  refine ⟨?_, ?_, ?_, ?_⟩
  · simp only [NodeHandlerWrapper.poll, hin, hout, hs2, htp]
    rcases hpr : H.poll (drainModel (negotiating_out_act FM H) w.negotiating_out
        (drainModel (negotiating_in_act FM H) w.negotiating_in w.handler.1).1).1 with ⟨s3, r⟩
    rcases r with e | a
    · simp
    · rcases a with v | _
      · rcases v with _ | ev
        · simp
        · rcases ev with ⟨upg, info⟩ | ev <;> simp
      · simp
  · intro f e hf
    simp [inCallOf, hf]
  · intro i f e hf
    simp [outCallOf, hf]
  · intro e herr
    simp only [NodeHandlerWrapper.poll, hin, hout, hs2, htp] at herr ⊢
    rcases hpr : H.poll (drainModel (negotiating_out_act FM H) w.negotiating_out
        (drainModel (negotiating_in_act FM H) w.negotiating_in w.handler.1).1).1 with ⟨s3, r⟩
    rw [hpr] at herr
    rcases r with e' | a
    · simpa using herr
    · exfalso
      rcases a with v | _
      · rcases v with _ | ev
        · simp at herr
        · rcases ev with ⟨upg, info⟩ | ev <;> simp at herr
      · simp at herr

/-- Witness for C4 at concrete failing negotiations and a wrapped handler
whose poll returns an error. -/
theorem poll_negotiation_failure_handling_witness :
    (testFM.poll (0, Except.error "boom") = .error "boom") ∧
    ((inCallOf testFM (0, Except.error "boom") : Option (HCall Nat Nat Nat)) = none) ∧
    ((outCallOf testFM (9, (0, Except.error "boom")) : Option (HCall Nat Nat Nat)) =
      some (.inject_dial_upgrade_error 9
        (.other ("Error while upgrading: " ++ testFM.describe "boom")))) ∧
    ((NodeHandlerWrapper.poll testFM (traced (constHandler (.error (.other "h"))))
        tracedWrapper).2 = .error (.other "h")) ∧
    (((traced (constHandler (.error (.other "h")))).poll
        (drainLoop (negotiating_out_act testFM (traced (constHandler (.error (.other "h")))))
          tracedWrapper.negotiating_out.length
          (drainLoop (negotiating_in_act testFM (traced (constHandler (.error (.other "h")))))
            tracedWrapper.negotiating_in.length
            tracedWrapper.handler tracedWrapper.negotiating_in).1
          tracedWrapper.negotiating_out).1).2 = .error (.other "h")) :=
  ⟨rfl,
   (poll_negotiation_failure_handling testFM (constHandler (.error (.other "h")))
      tracedWrapper).2.1 (0, Except.error "boom") "boom" rfl,
   (poll_negotiation_failure_handling testFM (constHandler (.error (.other "h")))
      tracedWrapper).2.2.1 9 (0, Except.error "boom") "boom" rfl,
   rfl,
   (poll_negotiation_failure_handling testFM (constHandler (.error (.other "h")))
      tracedWrapper).2.2.2 (.other "h") rfl⟩

/-- Removing a queue entry by id yields a sublist of the queue. -/
theorem removeById_sublist {queue : List (Nat × π)} {target : Nat} {p : π}
    {rest : List (Nat × π)} (h : removeById queue target = some (p, rest)) :
    rest.Sublist queue := by
  induction queue generalizing p rest with
  | nil => simp [removeById] at h
  | cons hd tl ih =>
    obtain ⟨id, q⟩ := hd
    by_cases hid : id = target
    · subst hid
      rw [show removeById ((id, q) :: tl) id = some (q, tl) by simp [removeById]] at h
      obtain ⟨rfl, rfl⟩ : q = p ∧ tl = rest := by simpa using h
      exact List.sublist_cons_self _ _
    · rcases hrec : removeById tl target with _ | ⟨q', rest'⟩
      · simp [removeById, hid, hrec] at h
      · simp only [removeById, if_neg hid, hrec] at h
        obtain ⟨rfl, rfl⟩ : q' = p ∧ (id, q) :: rest' = rest := by simpa using h
        exact (ih hrec).cons₂ _

/-- C5: an `inject_outbound_closed` whose id is queued (under the adapter's
id-uniqueness invariant) removes exactly that queue entry, performs exactly
one `inject_dial_upgrade_error` call on the wrapped handler carrying the
supplied user data and a connection-reset cause, does not trip the
defensive assertion, and leaves everything else unchanged; a second
closure report for the same id trips the defensive assertion and changes
nothing. -/
theorem inject_outbound_closed_spec (H : ProtocolsHandler σ ι ω π out υ)
    (w : NodeHandlerWrapper (σ × List (HCall ι out υ)) π υ φ)
    (i : Nat) (info : υ)
    (hnodup : (w.queued_dial_upgrades.map Prod.fst).Nodup)
    (hmem : i ∈ w.queued_dial_upgrades.map Prod.fst) :
    ∃ q₁ p q₂, w.queued_dial_upgrades = q₁ ++ (i, p) :: q₂ ∧
      (NodeHandlerWrapper.inject_outbound_closed (traced H) w (i, info)).1 =
        { w with
            queued_dial_upgrades := q₁ ++ q₂,
            handler := (H.inject_dial_upgrade_error w.handler.1 info .connectionReset,
              w.handler.2 ++ [.inject_dial_upgrade_error info .connectionReset]) } ∧
      (NodeHandlerWrapper.inject_outbound_closed (traced H) w (i, info)).2 = false ∧
      NodeHandlerWrapper.inject_outbound_closed (traced H)
          (NodeHandlerWrapper.inject_outbound_closed (traced H) w (i, info)).1 (i, info) =
        ((NodeHandlerWrapper.inject_outbound_closed (traced H) w (i, info)).1, true) := by
  obtain ⟨q₁, p, q₂, hq, hn1, hr⟩ := removeById_found hmem
  have hq' : q₁.map Prod.fst ++ i :: q₂.map Prod.fst =
      w.queued_dial_upgrades.map Prod.fst := by
    rw [hq]; simp
  have hnd : (q₁.map Prod.fst ++ i :: q₂.map Prod.fst).Nodup := by
    rw [hq']; exact hnodup
  have hnotin : i ∉ q₁.map Prod.fst ++ q₂.map Prod.fst :=
    (List.nodup_cons.mp (List.nodup_middle.mp hnd)).1
  have hni : ∀ r ∈ q₁ ++ q₂, r.1 ≠ i := by
    intro r hr' heq
    have hmm : r.1 ∈ q₁.map Prod.fst ++ q₂.map Prod.fst := by
      rcases List.mem_append.mp hr' with h | h
      · exact List.mem_append.mpr (Or.inl (List.mem_map_of_mem Prod.fst h))
      · exact List.mem_append.mpr (Or.inr (List.mem_map_of_mem Prod.fst h))
    rw [heq] at hmm
    exact hnotin hmm
  have hr2 : removeById (q₁ ++ q₂) i = none := removeById_eq_none hni
  refine ⟨q₁, p, q₂, hq, ?_, ?_, ?_⟩
  · simp [NodeHandlerWrapper.inject_outbound_closed, hr, traced]
  · simp [NodeHandlerWrapper.inject_outbound_closed, hr]
  · simp [NodeHandlerWrapper.inject_outbound_closed, hr, hr2]

/-- Witness for C5 at a concrete adapter state with one queued dial
upgrade of id `5`. -/
theorem inject_outbound_closed_spec_witness :
    (tracedWrapper.queued_dial_upgrades.map Prod.fst).Nodup ∧
    5 ∈ tracedWrapper.queued_dial_upgrades.map Prod.fst ∧
    (∃ q₁ p q₂, tracedWrapper.queued_dial_upgrades = q₁ ++ (5, p) :: q₂ ∧
      (NodeHandlerWrapper.inject_outbound_closed (traced (constHandler (.ok .NotReady)))
          tracedWrapper (5, 7)).1 =
        { tracedWrapper with
            queued_dial_upgrades := q₁ ++ q₂,
            handler := ((constHandler (.ok .NotReady)).inject_dial_upgrade_error
                tracedWrapper.handler.1 7 .connectionReset,
              tracedWrapper.handler.2 ++ [.inject_dial_upgrade_error 7 .connectionReset]) } ∧
      (NodeHandlerWrapper.inject_outbound_closed (traced (constHandler (.ok .NotReady)))
          tracedWrapper (5, 7)).2 = false ∧
      NodeHandlerWrapper.inject_outbound_closed (traced (constHandler (.ok .NotReady)))
          (NodeHandlerWrapper.inject_outbound_closed (traced (constHandler (.ok .NotReady)))
            tracedWrapper (5, 7)).1 (5, 7) =
        ((NodeHandlerWrapper.inject_outbound_closed (traced (constHandler (.ok .NotReady)))
            tracedWrapper (5, 7)).1, true)) :=
  ⟨by decide, by decide,
    inject_outbound_closed_spec (constHandler (.ok .NotReady)) tracedWrapper 5 7
      (by decide) (by decide)⟩

/-- One adapter poll either leaves the queued-dial-upgrade list and the id
counter unchanged (and emits no outbound-substream request), or appends
exactly one entry carrying the current counter value, increments the
counter, and emits the request under that id. -/
theorem poll_queue_cases (FM : FutureModel φ sub π out ε)
    (H : ProtocolsHandler σ ι ω π out υ) (w : NodeHandlerWrapper σ π υ φ) :
    ((w.poll FM H).1.queued_dial_upgrades = w.queued_dial_upgrades ∧
      (w.poll FM H).1.unique_dial_upgrade_id = w.unique_dial_upgrade_id ∧
      ∀ (id : Nat) (info : υ), (w.poll FM H).2 ≠
        .ok (.Ready (some (.OutboundSubstreamRequest (id, info))))) ∨
    (∃ u info, (w.poll FM H).1.queued_dial_upgrades =
        w.queued_dial_upgrades ++ [(w.unique_dial_upgrade_id, u)] ∧
      (w.poll FM H).1.unique_dial_upgrade_id = w.unique_dial_upgrade_id + 1 ∧
      (w.poll FM H).2 = .ok (.Ready (some (.OutboundSubstreamRequest
        (w.unique_dial_upgrade_id, info))))) := by
  simp only [NodeHandlerWrapper.poll]
  rcases hpr : H.poll (drainLoop (negotiating_out_act FM H) w.negotiating_out.length
      (drainLoop (negotiating_in_act FM H) w.negotiating_in.length w.handler
        w.negotiating_in).1 w.negotiating_out).1 with ⟨s3, r⟩
  rcases r with e | a
  · left; exact ⟨by simp, by simp, by simp⟩
  · rcases a with v | _
    · rcases v with _ | ev
      · left; exact ⟨by simp, by simp, by simp⟩
      · rcases ev with ⟨upg, info⟩ | ev
        · right; exact ⟨upg, info, by simp, by simp, by simp⟩
        · left; exact ⟨by simp, by simp, by simp⟩
    · left; exact ⟨by simp, by simp, by simp⟩

/-- Every adapter operation either leaves the queue a sublist of itself
with the counter unchanged, or (only a poll emitting an outbound request)
appends one fresh-id entry and increments the counter. -/
theorem applyOp_queue_cases (FM : FutureModel φ sub π out ε)
    (H : ProtocolsHandler σ ι ω π out υ) (w : NodeHandlerWrapper σ π υ φ)
    (op : AdapterOp ι υ sub) :
    ((applyOp FM H w op).queued_dial_upgrades.Sublist w.queued_dial_upgrades ∧
      (applyOp FM H w op).unique_dial_upgrade_id = w.unique_dial_upgrade_id) ∨
    (∃ u, (applyOp FM H w op).queued_dial_upgrades =
        w.queued_dial_upgrades ++ [(w.unique_dial_upgrade_id, u)] ∧
      (applyOp FM H w op).unique_dial_upgrade_id = w.unique_dial_upgrade_id + 1) := by
  cases op with
  | inject_substream substream endpoint =>
    cases endpoint with
    | Listener =>
      left
      exact ⟨List.Sublist.refl _, rfl⟩
    | Dialer pr =>
      obtain ⟨j, ud⟩ := pr
      rcases hr : removeById w.queued_dial_upgrades j with _ | ⟨q', rest⟩
      · left
        constructor
        · simp only [applyOp, NodeHandlerWrapper.inject_substream, hr]
          exact List.Sublist.refl _
        · simp [applyOp, NodeHandlerWrapper.inject_substream, hr]
      · left
        constructor
        · simp only [applyOp, NodeHandlerWrapper.inject_substream, hr]
          exact removeById_sublist hr
        · simp [applyOp, NodeHandlerWrapper.inject_substream, hr]
  | inject_inbound_closed =>
    left
    exact ⟨List.Sublist.refl _, rfl⟩
  | inject_outbound_closed ud =>
    rcases hr : removeById w.queued_dial_upgrades ud.1 with _ | ⟨q', rest⟩
    · left
      constructor
      · simp only [applyOp, NodeHandlerWrapper.inject_outbound_closed, hr]
        exact List.Sublist.refl _
      · simp [applyOp, NodeHandlerWrapper.inject_outbound_closed, hr]
    · left
      constructor
      · simp only [applyOp, NodeHandlerWrapper.inject_outbound_closed, hr]
        exact removeById_sublist hr
      · simp [applyOp, NodeHandlerWrapper.inject_outbound_closed, hr]
  | inject_event e =>
    left
    exact ⟨List.Sublist.refl _, rfl⟩
  | shutdown =>
    left
    exact ⟨List.Sublist.refl _, rfl⟩
  | poll =>
    rcases poll_queue_cases FM H w with ⟨h1, h2, -⟩ | ⟨u, info, h1, h2, -⟩
    · left
      constructor
      · rw [show (applyOp FM H w .poll).queued_dial_upgrades =
            w.queued_dial_upgrades from h1]
      · exact h2
    · right
      exact ⟨u, h1, h2⟩

/-- C2: every adapter operation preserves the id invariant (queued ids
strictly increasing and below the counter), never decreases the counter;
a poll that emits an outbound-substream request assigns exactly the
current counter value as the id, increments the counter past it, and
queues that id; and an id that has been consumed (absent from the queue
while below the counter) can never reappear in the queue. -/
theorem dial_upgrade_id_invariant (FM : FutureModel φ sub π out ε)
    (H : ProtocolsHandler σ ι ω π out υ) (w : NodeHandlerWrapper σ π υ φ)
    (op : AdapterOp ι υ sub) :
    (idsInv w → idsInv (applyOp FM H w op)) ∧
    w.unique_dial_upgrade_id ≤ (applyOp FM H w op).unique_dial_upgrade_id ∧
    (∀ (id : Nat) (info : υ),
        (w.poll FM H).2 = .ok (.Ready (some (.OutboundSubstreamRequest (id, info)))) →
        id = w.unique_dial_upgrade_id ∧
        (w.poll FM H).1.unique_dial_upgrade_id = id + 1 ∧
        id ∈ (w.poll FM H).1.queued_dial_upgrades.map Prod.fst) ∧
    (∀ k, k < w.unique_dial_upgrade_id →
        k ∉ w.queued_dial_upgrades.map Prod.fst →
        k ∉ (applyOp FM H w op).queued_dial_upgrades.map Prod.fst) := by
  have hcases := applyOp_queue_cases FM H w op
  refine ⟨?_, ?_, ?_, ?_⟩
  · intro hinv
    rcases hcases with ⟨hsub, hcnt⟩ | ⟨u, hq, hcnt⟩
    · constructor
      · exact hinv.1.sublist (hsub.map Prod.fst)
      · intro i hi
        rw [hcnt]
        exact hinv.2 i ((hsub.map Prod.fst).subset hi)
    · constructor
      · rw [hq, List.map_append, List.pairwise_append]
        refine ⟨hinv.1, by simp, ?_⟩
        intro a ha b hb
        simp only [List.map_cons, List.map_nil, List.mem_singleton] at hb
        exact hb ▸ hinv.2 a ha
      · intro i hi
        rw [hcnt]
        rw [hq, List.map_append] at hi
        rcases List.mem_append.mp hi with h | h
        · exact Nat.lt_succ_of_lt (hinv.2 i h)
        · simp only [List.map_cons, List.map_nil, List.mem_singleton] at h
          exact h ▸ Nat.lt_succ_self _
  · rcases hcases with ⟨-, hcnt⟩ | ⟨u, -, hcnt⟩
    · exact Nat.le_of_eq hcnt.symm
    · rw [hcnt]
      exact Nat.le_succ _
  · intro id info hid
    rcases poll_queue_cases FM H w with ⟨-, -, hne⟩ | ⟨u, info', hq, hcnt, hres⟩
    · exact absurd hid (hne id info)
    · rw [hres] at hid
      have hinj : w.unique_dial_upgrade_id = id ∧ info' = info := by
        simpa using hid
      obtain ⟨h1, h2⟩ := hinj
      refine ⟨h1.symm, ?_, ?_⟩
      · rw [hcnt, h1]
      · rw [hq, List.map_append, ← h1]
        simp
  · intro k hk hnot
    rcases hcases with ⟨hsub, -⟩ | ⟨u, hq, -⟩
    · intro hmem
      exact hnot ((hsub.map Prod.fst).subset hmem)
    · rw [hq, List.map_append]
      intro hmem
      rcases List.mem_append.mp hmem with h | h
      · exact hnot h
      · simp only [List.map_cons, List.map_nil, List.mem_singleton] at h
        exact absurd (h ▸ hk) (Nat.lt_irrefl _)

/-- Witness for C2 at a concrete adapter state whose wrapped handler emits
one outbound-substream request. -/
theorem dial_upgrade_id_invariant_witness :
    idsInv testWrapper ∧
    idsInv (applyOp testFM (constHandler (.ok (.Ready (some
      (.OutboundSubstreamRequest 42 3))))) testWrapper .poll) ∧
    ((testWrapper.poll testFM (constHandler (.ok (.Ready (some
        (.OutboundSubstreamRequest 42 3)))))).2 =
      .ok (.Ready (some (.OutboundSubstreamRequest (1, 3))))) ∧
    (1 = testWrapper.unique_dial_upgrade_id ∧
      (testWrapper.poll testFM (constHandler (.ok (.Ready (some
        (.OutboundSubstreamRequest 42 3)))))).1.unique_dial_upgrade_id = 1 + 1 ∧
      1 ∈ (testWrapper.poll testFM (constHandler (.ok (.Ready (some
        (.OutboundSubstreamRequest 42 3)))))).1.queued_dial_upgrades.map Prod.fst) :=
  ⟨by constructor <;> decide,
   (dial_upgrade_id_invariant testFM (constHandler (.ok (.Ready (some
      (.OutboundSubstreamRequest 42 3))))) testWrapper .poll).1
     (by constructor <;> decide),
   rfl,
   (dial_upgrade_id_invariant testFM (constHandler (.ok (.Ready (some
      (.OutboundSubstreamRequest 42 3))))) testWrapper .poll).2.2.1 1 3 rfl⟩

end Libp2p
